import Mathlib

/-!
Verification of the lineup optimizer in `generate-lineups.py`.

The program loads a roster table, computes a weighted batting score per player,
builds a map from each required fielding position to its eligible candidates,
and searches every assignment of distinct players to the required positions by
depth-first backtracking, keeping the best (highest total score) complete
assignment.  Unfillable slots are padded with sentinel entries and the result
is sorted by score, descending.

The embedding below is shallow: the pandas DataFrame becomes a list of player
records, numeric columns become rationals, the candidates dictionary becomes an
association list, and the mutable best-result dictionary threads through the
recursion as explicit state.  The only fallible operation in the original code
is the dictionary lookup `position_candidates[pos]`; it is modelled with
`Option`, so "the search raises no exception" becomes "the search returns
`some`".
-/

namespace MLB2K25

/-- Characterwise whitespace strip, the model of Python `str.strip()` /
pandas `.str.strip()` used by `load_and_prepare_data`. -/
def pyStripChars (l : List Char) : List Char :=
  ((l.dropWhile Char.isWhitespace).reverse.dropWhile Char.isWhitespace).reverse

/-- String version of `pyStripChars`. -/
def pyStrip (s : String) : String := ⟨pyStripChars s.data⟩

/-- Row of the `Lineup` sheet before `load_and_prepare_data` runs: the six
position columns are raw cells (`none` = blank / NaN). -/
structure RawPlayer where
  name : String
  bats : String
  average : ℚ
  hr : ℚ
  rbi : ℚ
  speed : ℚ
  atBats : ℚ
  contactR : ℚ
  contactL : ℚ
  powerR : ℚ
  powerL : ℚ
  vision : ℚ
  clutch : ℚ
  position1 : Option String
  position2 : Option String
  position3 : Option String
  position4 : Option String
  position5 : Option String
  position6 : Option String
  deriving DecidableEq, Repr

/-- Raw `Position1..Position6` cells of a row, in order. -/
def rawPositionLabels (r : RawPlayer) : List (Option String) :=
  [r.position1, r.position2, r.position3, r.position4, r.position5, r.position6]

/-- Player record after `load_and_prepare_data`: the six position columns have
been `fillna("")`-ed and stripped and collected into `All_Positions`. -/
structure Player where
  name : String
  bats : String
  average : ℚ
  hr : ℚ
  rbi : ℚ
  speed : ℚ
  atBats : ℚ
  contactR : ℚ
  contactL : ℚ
  powerR : ℚ
  powerL : ℚ
  vision : ℚ
  clutch : ℚ
  allPositions : List String
  deriving DecidableEq, Repr

/-- Per-row work of `load_and_prepare_data`: blanks become `""`, labels are
whitespace-stripped, and the six cells are collected into `All_Positions`. -/
def preparePlayer (r : RawPlayer) : Player :=
  { name := r.name
    bats := r.bats
    average := r.average
    hr := r.hr
    rbi := r.rbi
    speed := r.speed
    atBats := r.atBats
    contactR := r.contactR
    contactL := r.contactL
    powerR := r.powerR
    powerL := r.powerL
    vision := r.vision
    clutch := r.clutch
    allPositions := (rawPositionLabels r).map fun o => pyStrip (o.getD "") }

/-- Embedding of `load_and_prepare_data` (minus the Excel I/O, which is out of
scope): prepare every row of the table. -/
def load_and_prepare_data (df : List RawPlayer) : List Player :=
  df.map preparePlayer

/-- Embedding of `batting_score`: the weighted-stat score.  The two
handedness-dependent columns are passed as field selectors, mirroring the
`contact_col` / `power_col` column-name parameters of the source. -/
def batting_score (player : Player) (contact_col power_col : Player → ℚ) : ℚ :=
  contact_col player * 0.3 +
  power_col player * 0.25 +
  player.vision * 0.15 +
  player.clutch * 0.15 +
  player.speed * 0.10 +
  player.atBats * 0.05 +
  player.hr * 0.05 +
  player.rbi * 0.05 +
  player.average * 0.05

/-- Row of a per-position candidates table: a player row together with the
`Score` column added by `build_position_candidates`. -/
structure Candidate where
  p : Player
  score : ℚ
  deriving DecidableEq, Repr

/-- Embedding of `build_position_candidates`: for each needed position, filter
the players eligible for it (the position occurs in their `All_Positions`
list) and annotate each with its batting score.  The Python dict is modelled
as an association list in insertion order. -/
def build_position_candidates (df : List Player) (positions_needed : List String)
    (contact_col power_col : Player → ℚ) : List (String × List Candidate) :=
  positions_needed.map fun pos =>
    (pos,
      (df.filter fun x => pos ∈ x.allPositions).map fun row =>
        ⟨row, batting_score row contact_col power_col⟩)

/-- Round half to even, the model of Python's `round` on an exact value. -/
def pyRoundHalfEven (q : ℚ) : ℤ :=
  let f := ⌊q⌋
  let r := q - (f : ℚ)
  if r < 1/2 then f
  else if 1/2 < r then f + 1
  else if f % 2 = 0 then f else f + 1

/-- Model of Python `round(x, 2)`: round to two decimal places. -/
def pyRound2 (q : ℚ) : ℚ := (pyRoundHalfEven (q * 100) : ℚ) / 100

/-- Lineup row as assembled inside `backtrack_lineup` (and, for the sentinel
case, inside `find_best_lineup_backtracking`). -/
structure Entry where
  position : String
  player : String
  bats : String
  average : ℚ
  hr : ℚ
  rbi : ℚ
  speed : ℚ
  atBats : ℚ
  score : ℚ
  deriving DecidableEq, Repr

/-- Lineup row built from a candidate when `backtrack_lineup` commits it to
the current lineup; the displayed score is rounded to 2 decimals. -/
def lineupEntry (pos : String) (c : Candidate) : Entry :=
  { position := pos
    player := c.p.name
    bats := c.p.bats
    average := c.p.average
    hr := c.p.hr
    rbi := c.p.rbi
    speed := c.p.speed
    atBats := c.p.atBats
    score := pyRound2 c.score }

/-- Sentinel "N/A" row used by `find_best_lineup_backtracking` for positions
that received no real candidate. -/
def sentinelEntry (pos : String) : Entry :=
  { position := pos
    player := "N/A"
    bats := ""
    average := 0
    hr := 0
    rbi := 0
    speed := 0
    atBats := 0
    score := 0 }

/-- Total of the `Score` fields of a (partial) lineup, the
`sum(player["Score"] for player in current_lineup)` of the source. -/
def totalScore (lineup : List Entry) : ℚ := (lineup.map Entry.score).sum

/-- The `best_result` dictionary: its `score` starts at `-inf`, modelled as
`⊥ : WithBot ℚ`. -/
structure BestResult where
  score : WithBot ℚ
  lineup : List Entry

mutual

/-- Embedding of `backtrack_lineup`.  The recursion is over the remaining
positions (the source's `idx` suffix of `positions_needed`); `best_result`
threads through as explicit state instead of being mutated in place.  A
failing dictionary lookup — the only way the source could raise — yields
`none`. -/
def backtrack_lineup (pc : List (String × List Candidate)) :
    List String → List String → List Entry → BestResult → Option BestResult
  | [], _used_players, current_lineup, best_result =>
    let total_score := totalScore current_lineup
    if best_result.score < (total_score : WithBot ℚ) then
      some ⟨total_score, current_lineup⟩
    else some best_result
  | pos :: rest, used_players, current_lineup, best_result =>
    match pc.lookup pos with
    | none => none
    | some candidates =>
      backtrack_try pc rest pos used_players current_lineup candidates best_result
termination_by ps _used _cur _best => (ps.length, 0)

/-- Loop body of `backtrack_lineup`: iterate over the candidates of the
current position, skipping used players; committing a candidate pushes its
entry and its name, and the pop/remove of the source is implicit in passing
the unextended `used_players`/`current_lineup` to the next iteration. -/
def backtrack_try (pc : List (String × List Candidate)) (rest : List String)
    (pos : String) (used_players : List String) (current_lineup : List Entry) :
    List Candidate → BestResult → Option BestResult
  | [], best_result => some best_result
  | c :: cs, best_result =>
    if c.p.name ∈ used_players then
      backtrack_try pc rest pos used_players current_lineup cs best_result
    else
      match backtrack_lineup pc rest (c.p.name :: used_players)
          (current_lineup ++ [lineupEntry pos c]) best_result with
      | none => none
      | some b => backtrack_try pc rest pos used_players current_lineup cs b
termination_by cs _best => (rest.length, cs.length + 1)

end

/-- Ordering used for the final `sorted(..., key=Score, reverse=True)`:
earlier entries have the larger score. -/
def byScoreDesc (a b : Entry) : Prop := b.score ≤ a.score

instance : DecidableRel byScoreDesc := fun a b =>
  inferInstanceAs (Decidable (b.score ≤ a.score))

instance : IsTotal Entry byScoreDesc := ⟨fun a b => le_total b.score a.score⟩

instance : IsTrans Entry byScoreDesc :=
  ⟨fun _ _ _ h h' => le_trans h' h⟩

/-- Embedding of `find_best_lineup_backtracking`: build the candidates map,
run the backtracking search from an empty state with best score `-inf`, pad
missing slots with sentinel rows, and return the rows sorted by score
descending (`List.insertionSort` is a stable sort, like Python's `sorted`). -/
def find_best_lineup_backtracking (df : List Player) (positions_needed : List String)
    (contact_col power_col : Player → ℚ) : Option (List Entry) :=
  let position_candidates := build_position_candidates df positions_needed contact_col power_col
  match backtrack_lineup position_candidates positions_needed [] [] ⟨⊥, []⟩ with
  | none => none
  | some best_result =>
    let lineup := best_result.lineup ++
      ((positions_needed.drop best_result.lineup.length).map sentinelEntry)
    some (List.insertionSort byScoreDesc lineup)

/-! ### A state-passing rendering of the candidate builder

`build_position_candidates` only reads the roster: the row selection
`df[mask].copy()` works on a copy and the `Score` column is assigned on that
copy.  To state the frame property, the same loop is rendered with the roster
threaded through as explicit state; the theorem for C9 shows the state comes
back unchanged and the result is the pure function above. -/

/-- Loop of `build_position_candidates` with the roster as explicit state:
each iteration reads the roster, filters a fresh copy, annotates the copy with
scores, and extends the accumulated dictionary. -/
def build_position_candidatesSt (contact_col power_col : Player → ℚ) :
    List String → List (String × List Candidate) → List Player →
      List (String × List Candidate) × List Player
  | [], acc, df => (acc, df)
  | pos :: rest, acc, df =>
    let candidates := df.filter fun x => pos ∈ x.allPositions
    let annotated : List Candidate :=
      candidates.map fun row => ⟨row, batting_score row contact_col power_col⟩
    build_position_candidatesSt contact_col power_col rest (acc ++ [(pos, annotated)]) df

/-! ### Complete distinct assignments

`completions pc ps used` enumerates every way to pick, for each remaining
position in order, a candidate from its list whose player name is fresh —
exactly the leaves the backtracking search visits.  `IsValidAssignment` is
the declarative version used in the claim statements. -/

/-- All complete assignments of fresh-named candidates to the remaining
positions. -/
def completions (pc : List (String × List Candidate)) :
    List String → List String → List (List (String × Candidate))
  | [], _used => [[]]
  | pos :: rest, used =>
    ((pc.lookup pos).getD []).flatMap fun c =>
      if c.p.name ∈ used then []
      else (completions pc rest (c.p.name :: used)).map fun L => (pos, c) :: L

/-- Lineup rows of an assignment, in position order. -/
def entriesOf (L : List (String × Candidate)) : List Entry :=
  L.map fun x => lineupEntry x.1 x.2

/-- Player names committed by an assignment. -/
def assignmentNames (L : List (String × Candidate)) : List String :=
  L.map fun x => x.2.p.name

/-- A complete distinct assignment: one candidate per required position in
order, each drawn from that position's candidate list, no player name used
twice. -/
def IsValidAssignment (pc : List (String × List Candidate)) (ps : List String)
    (L : List (String × Candidate)) : Prop :=
  L.map Prod.fst = ps ∧
  (∀ x ∈ L, x.2 ∈ (pc.lookup x.1).getD []) ∧
  (assignmentNames L).Nodup

/-! ### Spec-side notions for the eligibility claim -/

/-- Case and whitespace normalization of a position label, as the spec words
it: strip surrounding whitespace and lowercase. -/
def specNormalize (s : String) : String :=
  ⟨(pyStripChars s.data).map Char.toLower⟩

/-- Spec-side eligibility: the position appears, after case and whitespace
normalization, among the player's non-empty position labels. -/
def specEligible (P : String) (r : RawPlayer) : Prop :=
  specNormalize P ∈
    ((((rawPositionLabels r).map fun o => o.getD "").filter fun s => s ≠ "").map specNormalize)

instance (P : String) (r : RawPlayer) : Decidable (specEligible P r) := by
  unfold specEligible
  infer_instance

/-- Sum of the raw (unrounded) candidate scores of an assignment, the
quantity the spec's optimality sentence speaks about. -/
def rawTotalScore (L : List (String × Candidate)) : ℚ :=
  (L.map fun x => x.2.score).sum

/-! ### Concrete data used in counterexamples and witnesses -/

/-- Player eligible only at catcher whose score is 10 (speed 100), the "A" of
the spec's scenario example. -/
def c1PlayerA : Player :=
  { name := "A", bats := "R", average := 0, hr := 0, rbi := 0, speed := 100, atBats := 0,
    contactR := 0, contactL := 0, powerR := 0, powerL := 0, vision := 0, clutch := 0,
    allPositions := ["C"] }

/-- Player eligible only at catcher whose score is 7 (speed 70), the "B" of
the spec's scenario example. -/
def c1PlayerB : Player :=
  { name := "B", bats := "L", average := 0, hr := 0, rbi := 0, speed := 70, atBats := 0,
    contactR := 0, contactL := 0, powerR := 0, powerL := 0, vision := 0, clutch := 0,
    allPositions := ["C"] }

/-- Roster of the spec's scenario example. -/
def c1Roster : List Player := [c1PlayerA, c1PlayerB]

/-- Catcher-only player with score 5/2 (speed 25). -/
def wPlayerA : Player :=
  { name := "A", bats := "R", average := 0, hr := 0, rbi := 0, speed := 25, atBats := 0,
    contactR := 0, contactL := 0, powerR := 0, powerL := 0, vision := 0, clutch := 0,
    allPositions := ["C"] }

/-- Catcher-only player with score 17/10 (speed 17). -/
def wPlayerB : Player :=
  { name := "B", bats := "L", average := 0, hr := 0, rbi := 0, speed := 17, atBats := 0,
    contactR := 0, contactL := 0, powerR := 0, powerL := 0, vision := 0, clutch := 0,
    allPositions := ["C"] }

/-- Two-player roster for witnesses. -/
def wRoster : List Player := [wPlayerA, wPlayerB]

/-- Lineup row produced for `wPlayerA` at catcher. -/
def wEntryA : Entry :=
  { position := "C", player := "A", bats := "R", average := 0, hr := 0, rbi := 0,
    speed := 25, atBats := 0, score := 5/2 }

/-- Player whose raw score 1/250 rounds to 0 at two decimals (average 2/25,
everything else 0). -/
def cxPlayer : Player :=
  { name := "P", bats := "R", average := 2/25, hr := 0, rbi := 0, speed := 0, atBats := 0,
    contactR := 0, contactL := 0, powerR := 0, powerL := 0, vision := 0, clutch := 0,
    allPositions := ["C"] }

/-- One-player roster for the rounding counterexample. -/
def cxRoster : List Player := [cxPlayer]

/-- Explicit candidate map for the restriction-monotonicity witness. -/
def c8Full : List (String × List Candidate) := [("C", [⟨wPlayerA, 5/2⟩, ⟨wPlayerB, 17/10⟩])]

/-- The same map with the high-scoring catcher candidate removed. -/
def c8Restricted : List (String × List Candidate) := [("C", [⟨wPlayerB, 17/10⟩])]

/-- Lineup row produced for `wPlayerB` at catcher. -/
def wEntryB : Entry :=
  { position := "C", player := "B", bats := "L", average := 0, hr := 0, rbi := 0,
    speed := 17, atBats := 0, score := 17/10 }

/-- The unique complete assignment over `wRoster` with positions `["C"]`. -/
def wAssign : List (String × Candidate) := [("C", ⟨wPlayerA, 5/2⟩)]

/-- Lineup row produced for `cxPlayer`: its displayed score is the raw score
1/250 rounded to two decimals, i.e. 0. -/
def cxEntry : Entry :=
  { position := "C", player := "P", bats := "R", average := 2/25, hr := 0, rbi := 0,
    speed := 0, atBats := 0, score := 0 }

/-- Raw roster row whose only position label is the lowercase "c". -/
def c4Raw : RawPlayer :=
  { name := "X", bats := "R", average := 0, hr := 0, rbi := 0, speed := 0, atBats := 0,
    contactR := 0, contactL := 0, powerR := 0, powerL := 0, vision := 0, clutch := 0,
    position1 := some "c", position2 := none, position3 := none,
    position4 := none, position5 := none, position6 := none }

/-- Raw roster row whose only position label is "C" with surrounding
whitespace. -/
def c4RawW : RawPlayer :=
  { name := "Y", bats := "L", average := 0, hr := 0, rbi := 0, speed := 0, atBats := 0,
    contactR := 0, contactL := 0, powerR := 0, powerL := 0, vision := 0, clutch := 0,
    position1 := some " C ", position2 := none, position3 := none,
    position4 := none, position5 := none, position6 := none }

/-! ### Basic lemmas -/

theorem entriesOf_nil : entriesOf [] = [] := rfl

theorem entriesOf_cons (x : String × Candidate) (L : List (String × Candidate)) :
    entriesOf (x :: L) = lineupEntry x.1 x.2 :: entriesOf L := rfl

theorem entriesOf_length (L : List (String × Candidate)) :
    (entriesOf L).length = L.length := List.length_map _ _

theorem entriesOf_map_player (L : List (String × Candidate)) :
    (entriesOf L).map Entry.player = assignmentNames L := by
  induction L with
  | nil => rfl
  | cons x L ih => simp [entriesOf, assignmentNames, lineupEntry] at ih ⊢

theorem assignmentNames_cons (x : String × Candidate) (L : List (String × Candidate)) :
    assignmentNames (x :: L) = x.2.p.name :: assignmentNames L := rfl

theorem completions_nil (pc : List (String × List Candidate)) (used : List String) :
    completions pc [] used = [[]] := rfl

theorem completions_cons (pc : List (String × List Candidate)) (pos : String)
    (rest used : List String) :
    completions pc (pos :: rest) used =
      ((pc.lookup pos).getD []).flatMap fun c =>
        if c.p.name ∈ used then []
        else (completions pc rest (c.p.name :: used)).map fun L => (pos, c) :: L := by
  rw [completions]

theorem mem_completions_cons {pc : List (String × List Candidate)} {pos : String}
    {rest used : List String} {L' : List (String × Candidate)} :
    L' ∈ completions pc (pos :: rest) used ↔
      ∃ c ∈ (pc.lookup pos).getD [], c.p.name ∉ used ∧
        ∃ L ∈ completions pc rest (c.p.name :: used), L' = (pos, c) :: L := by
  rw [completions_cons]
  rw [List.mem_flatMap]
  constructor
  · rintro ⟨c, hc, hmem⟩
    by_cases hn : c.p.name ∈ used
    · simp [hn] at hmem
    · rw [if_neg hn, List.mem_map] at hmem
      obtain ⟨L, hL, rfl⟩ := hmem
      exact ⟨c, hc, hn, L, hL, rfl⟩
  · rintro ⟨c, hc, hn, L, hL, rfl⟩
    refine ⟨c, hc, ?_⟩
    rw [if_neg hn, List.mem_map]
    exact ⟨L, hL, rfl⟩

theorem mem_completions_iff (pc : List (String × List Candidate)) (ps : List String) :
    ∀ (used : List String) (L : List (String × Candidate)),
      L ∈ completions pc ps used ↔
        L.map Prod.fst = ps ∧
        (∀ x ∈ L, x.2 ∈ (pc.lookup x.1).getD []) ∧
        (assignmentNames L).Nodup ∧
        (∀ n ∈ assignmentNames L, n ∉ used) := by
  induction ps with
  | nil =>
    intro used L
    rw [completions_nil]
    constructor
    · intro h
      have hL : L = [] := by simpa using h
      subst hL
      simp [assignmentNames]
    · rintro ⟨hfst, -, -, -⟩
      have hL : L = [] := by simpa using List.map_eq_nil_iff.mp hfst
      subst hL
      simp
  | cons pos rest IH =>
    intro used L
    rw [mem_completions_cons]
    constructor
    · rintro ⟨c, hc, hn, L₂, hL₂, rfl⟩
      obtain ⟨hfst, hcand, hnodup, hdisj⟩ := (IH _ _).1 hL₂
      refine ⟨by simp [hfst], ?_, ?_, ?_⟩
      · intro x hx
        rcases List.mem_cons.1 hx with rfl | hx'
        · simpa using hc
        · exact hcand x hx'
      · rw [assignmentNames_cons, List.nodup_cons]
        refine ⟨fun hmem => ?_, hnodup⟩
        exact (hdisj _ hmem) (List.mem_cons_self _ _)
      · intro n hn'
        rcases List.mem_cons.1 (by simpa [assignmentNames_cons] using hn') with rfl | hmem
        · exact hn
        · intro hnu
          exact (hdisj n hmem) (List.mem_cons_of_mem _ hnu)
    · rintro ⟨hfst, hcand, hnodup, hdisj⟩
      cases L with
      | nil => simp at hfst
      | cons x L₂ =>
        obtain ⟨hx1, hrest⟩ : x.1 = pos ∧ L₂.map Prod.fst = rest := by simpa using hfst
        rw [assignmentNames_cons, List.nodup_cons] at hnodup
        have hhead : x.2.p.name ∈ assignmentNames (x :: L₂) := by
          rw [assignmentNames_cons]; exact List.mem_cons_self _ _
        have hnu : x.2.p.name ∉ used := hdisj _ hhead
        refine ⟨x.2, ?_, hnu, L₂, ?_, ?_⟩
        · have := hcand x (List.mem_cons_self _ _)
          rwa [hx1] at this
        · refine (IH _ _).2 ⟨hrest, fun y hy => hcand y (List.mem_cons_of_mem _ hy),
            hnodup.2, ?_⟩
          intro n hmem hnin
          rcases List.mem_cons.1 hnin with heq | hnin'
          · exact hnodup.1 (heq ▸ hmem)
          · exact hdisj n (by rw [assignmentNames_cons]; exact List.mem_cons_of_mem _ hmem) hnin'
        · have hx : x = (pos, x.2) := by
            cases x with
            | mk a b => simpa using hx1
          rw [← hx]

theorem completions_length {pc : List (String × List Candidate)} {ps used : List String}
    {L : List (String × Candidate)} (h : L ∈ completions pc ps used) :
    L.length = ps.length := by
  have hfst := ((mem_completions_iff pc ps used L).1 h).1
  calc L.length = (L.map Prod.fst).length := (List.length_map _ _).symm
    _ = ps.length := by rw [hfst]

theorem completions_nodup_names {pc : List (String × List Candidate)} {ps used : List String}
    {L : List (String × Candidate)} (h : L ∈ completions pc ps used) :
    (assignmentNames L).Nodup :=
  ((mem_completions_iff pc ps used L).1 h).2.2.1

theorem mem_completions_empty_iff (pc : List (String × List Candidate)) (ps : List String)
    (L : List (String × Candidate)) :
    L ∈ completions pc ps [] ↔ IsValidAssignment pc ps L := by
  rw [mem_completions_iff]
  unfold IsValidAssignment
  simp

theorem lookup_build_eq (df : List Player) (contact_col power_col : Player → ℚ) :
    ∀ (ps : List String) (p : String), p ∈ ps →
      (build_position_candidates df ps contact_col power_col).lookup p =
        some ((df.filter fun x => p ∈ x.allPositions).map fun row =>
          ⟨row, batting_score row contact_col power_col⟩) := by
  intro ps
  induction ps with
  | nil => intro p hp; simp at hp
  | cons q rest IH =>
    intro p hp
    by_cases hpq : p = q
    · subst hpq
      simp [build_position_candidates, List.lookup]
    · have hp' : p ∈ rest := by
        rcases List.mem_cons.1 hp with h | h
        · exact absurd h hpq
        · exact h
      have : (p == q) = false := by
        simp [hpq]
      simp only [build_position_candidates, List.map_cons, List.lookup, this]
      exact IH p hp'

/-! ### Specification of the backtracking search

The search returns a best result whose score is an upper bound of the total
(rounded) score of every completion reachable from the current state, never
decreases the incoming best, and is attained: the result is either the
incoming best unchanged or the lineup of some reachable completion. -/

theorem backtrack_try_spec (pc : List (String × List Candidate)) (rest : List String)
    (pos : String)
    (IH : ∀ (used : List String) (cur : List Entry) (best b : BestResult),
      backtrack_lineup pc rest used cur best = some b →
      best.score ≤ b.score ∧
      (∀ L ∈ completions pc rest used,
        ((totalScore (cur ++ entriesOf L) : ℚ) : WithBot ℚ) ≤ b.score) ∧
      (b = best ∨ ∃ L ∈ completions pc rest used,
        b.lineup = cur ++ entriesOf L ∧
        b.score = ((totalScore (cur ++ entriesOf L) : ℚ) : WithBot ℚ))) :
    ∀ (cs : List Candidate) (used : List String) (cur : List Entry) (best b : BestResult),
      backtrack_try pc rest pos used cur cs best = some b →
      best.score ≤ b.score ∧
      (∀ c ∈ cs, c.p.name ∉ used →
        ∀ L ∈ completions pc rest (c.p.name :: used),
          ((totalScore (cur ++ entriesOf ((pos, c) :: L)) : ℚ) : WithBot ℚ) ≤ b.score) ∧
      (b = best ∨ ∃ c ∈ cs, c.p.name ∉ used ∧
        ∃ L ∈ completions pc rest (c.p.name :: used),
          b.lineup = cur ++ entriesOf ((pos, c) :: L) ∧
          b.score = ((totalScore (cur ++ entriesOf ((pos, c) :: L)) : ℚ) : WithBot ℚ)) := by
  intro cs
  induction cs with
  | nil =>
    intro used cur best b h
    simp only [backtrack_try, Option.some.injEq] at h
    subst h
    exact ⟨le_refl _, by simp, Or.inl rfl⟩
  | cons c cs IHcs =>
    intro used cur best b h
    simp only [backtrack_try] at h
    have hassoc : ∀ L, cur ++ entriesOf ((pos, c) :: L) =
        (cur ++ [lineupEntry pos c]) ++ entriesOf L := by
      intro L; rw [entriesOf_cons]; simp
    by_cases hn : c.p.name ∈ used
    · rw [if_pos hn] at h
      obtain ⟨hm, hu, ha⟩ := IHcs used cur best b h
      refine ⟨hm, ?_, ?_⟩
      · intro c' hc' hn' L hL
        rcases List.mem_cons.1 hc' with rfl | hc''
        · exact absurd hn hn'
        · exact hu c' hc'' hn' L hL
      · rcases ha with rfl | ⟨c', hc', hn', L, hL, hlin, hsc⟩
        · exact Or.inl rfl
        · exact Or.inr ⟨c', List.mem_cons_of_mem _ hc', hn', L, hL, hlin, hsc⟩
    · rw [if_neg hn] at h
      cases hbl : backtrack_lineup pc rest (c.p.name :: used)
          (cur ++ [lineupEntry pos c]) best with
      | none => rw [hbl] at h; simp at h
      | some b1 =>
        rw [hbl] at h
        obtain ⟨hm1, hu1, ha1⟩ := IH _ _ _ _ hbl
        obtain ⟨hm2, hu2, ha2⟩ := IHcs used cur b1 b h
        refine ⟨le_trans hm1 hm2, ?_, ?_⟩
        · intro c' hc' hn' L hL
          rcases List.mem_cons.1 hc' with rfl | hc''
          · rw [hassoc]
            exact le_trans (hu1 L hL) hm2
          · exact hu2 c' hc'' hn' L hL
        · rcases ha2 with rfl | ⟨c', hc', hn', L, hL, hlin, hsc⟩
          · rcases ha1 with rfl | ⟨L, hL, hlin, hsc⟩
            · exact Or.inl rfl
            · refine Or.inr ⟨c, List.mem_cons_self _ _, hn, L, hL, ?_, ?_⟩
              · rw [hassoc]; exact hlin
              · rw [hassoc]; exact hsc
          · exact Or.inr ⟨c', List.mem_cons_of_mem _ hc', hn', L, hL, hlin, hsc⟩

theorem backtrack_lineup_spec (pc : List (String × List Candidate)) :
    ∀ (ps : List String) (used : List String) (cur : List Entry) (best b : BestResult),
      backtrack_lineup pc ps used cur best = some b →
      best.score ≤ b.score ∧
      (∀ L ∈ completions pc ps used,
        ((totalScore (cur ++ entriesOf L) : ℚ) : WithBot ℚ) ≤ b.score) ∧
      (b = best ∨ ∃ L ∈ completions pc ps used,
        b.lineup = cur ++ entriesOf L ∧
        b.score = ((totalScore (cur ++ entriesOf L) : ℚ) : WithBot ℚ)) := by
  intro ps
  induction ps with
  | nil =>
    intro used cur best b h
    simp only [backtrack_lineup] at h
    by_cases hlt : best.score < ((totalScore cur : ℚ) : WithBot ℚ)
    · rw [if_pos hlt] at h
      simp only [Option.some.injEq] at h
      subst h
      refine ⟨le_of_lt hlt, ?_, ?_⟩
      · intro L hL
        have hLnil : L = [] := by simpa [completions_nil] using hL
        subst hLnil
        simp [entriesOf_nil]
      · refine Or.inr ⟨[], by simp [completions_nil], by simp [entriesOf_nil], ?_⟩
        simp [entriesOf_nil]
    · rw [if_neg hlt] at h
      simp only [Option.some.injEq] at h
      subst h
      refine ⟨le_refl _, ?_, Or.inl rfl⟩
      intro L hL
      have hLnil : L = [] := by simpa [completions_nil] using hL
      subst hLnil
      simpa [entriesOf_nil] using not_lt.1 hlt
  | cons pos rest IH =>
    intro used cur best b h
    simp only [backtrack_lineup] at h
    cases hlk : pc.lookup pos with
    | none => rw [hlk] at h; simp at h
    | some cands =>
      rw [hlk] at h
      obtain ⟨hm, hu, ha⟩ := backtrack_try_spec pc rest pos IH cands used cur best b h
      have hgetD : (pc.lookup pos).getD [] = cands := by rw [hlk]; rfl
      refine ⟨hm, ?_, ?_⟩
      · intro L' hL'
        obtain ⟨c, hc, hn, L, hL, rfl⟩ := mem_completions_cons.1 hL'
        rw [hgetD] at hc
        exact hu c hc hn L hL
      · rcases ha with rfl | ⟨c, hc, hn, L, hL, hlin, hsc⟩
        · exact Or.inl rfl
        · refine Or.inr ⟨(pos, c) :: L, ?_, hlin, hsc⟩
          exact mem_completions_cons.2 ⟨c, by rw [hgetD]; exact hc, hn, L, hL, rfl⟩

/-! ### The search cannot fail when every needed position has a key -/

theorem backtrack_try_isSome (pc : List (String × List Candidate)) (rest : List String)
    (pos : String)
    (IH : ∀ (used : List String) (cur : List Entry) (best : BestResult),
      (backtrack_lineup pc rest used cur best).isSome) :
    ∀ (cs : List Candidate) (used : List String) (cur : List Entry) (best : BestResult),
      (backtrack_try pc rest pos used cur cs best).isSome := by
  intro cs
  induction cs with
  | nil => intro used cur best; simp [backtrack_try]
  | cons c cs IHcs =>
    intro used cur best
    simp only [backtrack_try]
    by_cases hn : c.p.name ∈ used
    · rw [if_pos hn]; exact IHcs used cur best
    · rw [if_neg hn]
      cases hbl : backtrack_lineup pc rest (c.p.name :: used)
          (cur ++ [lineupEntry pos c]) best with
      | none =>
        have := IH (c.p.name :: used) (cur ++ [lineupEntry pos c]) best
        rw [hbl] at this
        simp at this
      | some b1 => exact IHcs used cur b1

theorem backtrack_lineup_isSome (pc : List (String × List Candidate)) :
    ∀ ps : List String, (∀ p ∈ ps, (pc.lookup p).isSome) →
      ∀ (used : List String) (cur : List Entry) (best : BestResult),
        (backtrack_lineup pc ps used cur best).isSome := by
  intro ps
  induction ps with
  | nil =>
    intro _hcov used cur best
    simp only [backtrack_lineup]
    by_cases hlt : best.score < ((totalScore cur : ℚ) : WithBot ℚ)
    · rw [if_pos hlt]; rfl
    · rw [if_neg hlt]; rfl
  | cons pos rest IH =>
    intro hcov used cur best
    simp only [backtrack_lineup]
    cases hlk : pc.lookup pos with
    | none =>
      have := hcov pos (List.mem_cons_self _ _)
      rw [hlk] at this
      simp at this
    | some cands =>
      exact backtrack_try_isSome pc rest pos
        (IH fun p hp => hcov p (List.mem_cons_of_mem _ hp)) cands used cur best

/-! ### Case analysis of the full pipeline -/

theorem find_best_cases (df : List Player) (ps : List String)
    (contact_col power_col : Player → ℚ) (lineup : List Entry)
    (h : find_best_lineup_backtracking df ps contact_col power_col = some lineup) :
    (∃ L ∈ completions (build_position_candidates df ps contact_col power_col) ps [],
        lineup = List.insertionSort byScoreDesc (entriesOf L) ∧
        ∀ L' ∈ completions (build_position_candidates df ps contact_col power_col) ps [],
          totalScore (entriesOf L') ≤ totalScore (entriesOf L))
    ∨ (completions (build_position_candidates df ps contact_col power_col) ps [] = [] ∧
        lineup = List.insertionSort byScoreDesc (ps.map sentinelEntry)) := by
  simp only [find_best_lineup_backtracking] at h
  cases hbt : backtrack_lineup (build_position_candidates df ps contact_col power_col)
      ps [] [] ⟨⊥, []⟩ with
  | none => rw [hbt] at h; simp at h
  | some b =>
    rw [hbt] at h
    simp only [Option.some.injEq] at h
    obtain ⟨_hm, hu, ha⟩ :=
      backtrack_lineup_spec (build_position_candidates df ps contact_col power_col)
        ps [] [] ⟨⊥, []⟩ b hbt
    rcases ha with rfl | ⟨L, hL, hlin, hsc⟩
    · right
      have hcomp : completions (build_position_candidates df ps contact_col power_col)
          ps [] = [] := by
        cases hc : completions (build_position_candidates df ps contact_col power_col)
            ps [] with
        | nil => rfl
        | cons L rest =>
          exfalso
          have hle := hu L (by rw [hc]; exact List.mem_cons_self _ _)
          exact WithBot.not_coe_le_bot _ hle
      refine ⟨hcomp, ?_⟩
      rw [← h]
      simp
    · left
      have hlen : L.length = ps.length := completions_length hL
      have hlin' : b.lineup = entriesOf L := by simpa using hlin
      refine ⟨L, hL, ?_, ?_⟩
      · rw [← h, hlin']
        rw [entriesOf_length, hlen, List.drop_length]
        simp
      · intro L' hL'
        have hle := hu L' hL'
        rw [hsc] at hle
        have := WithBot.coe_le_coe.1 hle
        simpa using this

/-! ### Rounding and sorting helpers -/

theorem pyRoundHalfEven_intCast (n : ℤ) : pyRoundHalfEven (n : ℚ) = n := by
  unfold pyRoundHalfEven
  rw [Int.floor_intCast]
  simp

theorem pyRound2_zero : pyRound2 0 = 0 := by
  unfold pyRound2
  rw [show ((0 : ℚ) * 100) = ((0 : ℤ) : ℚ) by norm_num, pyRoundHalfEven_intCast]
  norm_num

theorem pyRound2_idem (q : ℚ) : pyRound2 (pyRound2 q) = pyRound2 q := by
  unfold pyRound2
  rw [show ((pyRoundHalfEven (q * 100) : ℚ) / 100 * 100) = ((pyRoundHalfEven (q * 100) : ℚ)) by
    field_simp]
  rw [pyRoundHalfEven_intCast]

theorem totalScore_insertionSort (l : List Entry) :
    totalScore (List.insertionSort byScoreDesc l) = totalScore l := by
  unfold totalScore
  exact ((List.perm_insertionSort byScoreDesc l).map Entry.score).sum_eq

theorem build_position_candidatesSt_spec (contact_col power_col : Player → ℚ) :
    ∀ (ps : List String) (acc : List (String × List Candidate)) (df : List Player),
      build_position_candidatesSt contact_col power_col ps acc df =
        (acc ++ build_position_candidates df ps contact_col power_col, df) := by
  intro ps
  induction ps with
  | nil => intro acc df; simp [build_position_candidatesSt, build_position_candidates]
  | cons pos rest IH =>
    intro acc df
    rw [build_position_candidatesSt, IH]
    simp [build_position_candidates]

/-! ### Claim theorems -/

/-- C3: `batting_score` returns exactly
0.30·contact + 0.25·power + 0.15·vision + 0.15·clutch + 0.10·speed +
0.05·atBats + 0.05·HR + 0.05·RBI + 0.05·average, where contact and power are
the handedness-selected attributes passed in. -/
theorem batting_score_formula (p : Player) (contact_col power_col : Player → ℚ) :
    batting_score p contact_col power_col =
      0.30 * contact_col p + 0.25 * power_col p + 0.15 * p.vision + 0.15 * p.clutch +
      0.10 * p.speed + 0.05 * p.atBats + 0.05 * p.hr + 0.05 * p.rbi + 0.05 * p.average := by
  unfold batting_score
  norm_num
  ring

/-- C9: the candidate builder has no side effects: rendered with the roster
threaded as explicit state, it returns the roster unchanged and its result is
the pure function `build_position_candidates` of its inputs. -/
theorem build_position_candidates_pure (df : List Player) (ps : List String)
    (contact_col power_col : Player → ℚ) :
    build_position_candidatesSt contact_col power_col ps [] df =
      (build_position_candidates df ps contact_col power_col, df) := by
  simpa using build_position_candidatesSt_spec contact_col power_col ps [] df

/-- C7: for every roster and required-positions list the search returns
normally — the only fallible operation, the candidates-dictionary lookup, is
always fed a key that `build_position_candidates` populated, so the pipeline
never produces `none`. -/
theorem find_best_never_fails (df : List Player) (ps : List String)
    (contact_col power_col : Player → ℚ) :
    (find_best_lineup_backtracking df ps contact_col power_col).isSome := by
  have hcov : ∀ p ∈ ps,
      ((build_position_candidates df ps contact_col power_col).lookup p).isSome := by
    intro p hp
    rw [lookup_build_eq df contact_col power_col ps p hp]
    rfl
  have h := backtrack_lineup_isSome _ ps hcov [] [] ⟨⊥, []⟩
  simp only [find_best_lineup_backtracking]
  cases hbt : backtrack_lineup (build_position_candidates df ps contact_col power_col)
      ps [] [] ⟨⊥, []⟩ with
  | none => rw [hbt] at h; simp at h
  | some b => rfl

/-- C2 (amended): whenever a complete distinct assignment exists, the total of
the `Score` fields of the returned lineup equals the maximum, over all
complete distinct assignments, of the sum of the assigned candidates' scores
each rounded to two decimal places (the entries of an assignment carry the
rounded scores, and the search compares exactly these rounded totals). -/
theorem find_best_total_optimal (df : List Player) (ps : List String)
    (contact_col power_col : Player → ℚ) (lineup : List Entry)
    (h : find_best_lineup_backtracking df ps contact_col power_col = some lineup)
    (hex : ∃ A, IsValidAssignment (build_position_candidates df ps contact_col power_col) ps A) :
    (∀ A, IsValidAssignment (build_position_candidates df ps contact_col power_col) ps A →
      totalScore (entriesOf A) ≤ totalScore lineup) ∧
    (∃ A, IsValidAssignment (build_position_candidates df ps contact_col power_col) ps A ∧
      totalScore lineup = totalScore (entriesOf A)) := by
  rcases find_best_cases df ps contact_col power_col lineup h with
    ⟨L, hL, rfl, hmax⟩ | ⟨hcomp, _⟩
  · constructor
    · intro A hA
      rw [totalScore_insertionSort]
      exact hmax A ((mem_completions_empty_iff _ _ _).2 hA)
    · exact ⟨L, (mem_completions_empty_iff _ _ _).1 hL, totalScore_insertionSort _⟩
  · obtain ⟨A, hA⟩ := hex
    have hmem := (mem_completions_empty_iff _ _ _).2 hA
    rw [hcomp] at hmem
    simp at hmem

/-- C10: the returned lineup is all-or-nothing: either a complete distinct
assignment exists and the lineup is the sort of such an assignment's rows
(every entry a real candidate row), or none exists and the lineup is the sort
of one sentinel row per required position (every entry a sentinel). -/
theorem find_best_all_or_nothing (df : List Player) (ps : List String)
    (contact_col power_col : Player → ℚ) (lineup : List Entry)
    (h : find_best_lineup_backtracking df ps contact_col power_col = some lineup) :
    (∃ A, IsValidAssignment (build_position_candidates df ps contact_col power_col) ps A ∧
        lineup = List.insertionSort byScoreDesc (entriesOf A) ∧
        ∀ e ∈ lineup, ∃ x ∈ A, e = lineupEntry x.1 x.2) ∨
    ((¬ ∃ A, IsValidAssignment (build_position_candidates df ps contact_col power_col) ps A) ∧
        lineup = List.insertionSort byScoreDesc (ps.map sentinelEntry) ∧
        ∀ e ∈ lineup, ∃ pos ∈ ps, e = sentinelEntry pos) := by
  rcases find_best_cases df ps contact_col power_col lineup h with
    ⟨L, hL, rfl, _⟩ | ⟨hcomp, rfl⟩
  · left
    refine ⟨L, (mem_completions_empty_iff _ _ _).1 hL, rfl, ?_⟩
    intro e he
    rw [List.mem_insertionSort] at he
    obtain ⟨a, bc, hx, rfl⟩ :=
      (by simpa [entriesOf] using he : ∃ a b, (a, b) ∈ L ∧ lineupEntry a b = e)
    exact ⟨(a, bc), hx, rfl⟩
  · right
    refine ⟨?_, rfl, ?_⟩
    · rintro ⟨A, hA⟩
      have hmem := (mem_completions_empty_iff _ _ _).2 hA
      rw [hcomp] at hmem
      simp at hmem
    · intro e he
      rw [List.mem_insertionSort] at he
      obtain ⟨pos, hpos, rfl⟩ := List.mem_map.1 he
      exact ⟨pos, hpos, rfl⟩

/-- C5: in every returned lineup, no two entries reference the same player
identity unless both are sentinel "N/A" placeholders. -/
theorem find_best_distinct (df : List Player) (ps : List String)
    (contact_col power_col : Player → ℚ) (lineup : List Entry)
    (h : find_best_lineup_backtracking df ps contact_col power_col = some lineup) :
    lineup.Pairwise fun a b => a.player = b.player → a.player = "N/A" ∧ b.player = "N/A" := by
  have hsymm : ∀ {a b : Entry},
      (a.player = b.player → a.player = "N/A" ∧ b.player = "N/A") →
      (b.player = a.player → b.player = "N/A" ∧ a.player = "N/A") := by
    intro a b hab hba
    obtain ⟨h1, h2⟩ := hab hba.symm
    exact ⟨h2, h1⟩
  rcases find_best_cases df ps contact_col power_col lineup h with
    ⟨L, hL, rfl, _⟩ | ⟨_, rfl⟩
  · have hnodup : (assignmentNames L).Nodup := completions_nodup_names hL
    rw [← entriesOf_map_player] at hnodup
    have hpw : (entriesOf L).Pairwise fun a b => a.player ≠ b.player :=
      List.pairwise_map.1 hnodup
    have hpw' : (entriesOf L).Pairwise
        fun a b => a.player = b.player → a.player = "N/A" ∧ b.player = "N/A" :=
      hpw.imp fun hne heq => absurd heq hne
    exact (List.Perm.pairwise_iff @hsymm
      (List.perm_insertionSort byScoreDesc (entriesOf L))).2 hpw'
  · have hall : ∀ e ∈ ps.map sentinelEntry, e.player = "N/A" := by
      intro e he
      obtain ⟨pos, _, rfl⟩ := List.mem_map.1 he
      rfl
    have hpw : (ps.map sentinelEntry).Pairwise
        fun a b => a.player = b.player → a.player = "N/A" ∧ b.player = "N/A" := by
      refine List.pairwise_of_forall_mem_list ?_
      intro a ha b hb _
      exact ⟨hall a ha, hall b hb⟩
    exact (List.Perm.pairwise_iff @hsymm
      (List.perm_insertionSort byScoreDesc (ps.map sentinelEntry))).2 hpw

/-- C6: every returned lineup has exactly one entry per required position, is
sorted by the `Score` field in descending order, every `Score` field is a
fixed point of rounding to two decimal places, and sentinel rows carry score
zero. -/
theorem find_best_shape (df : List Player) (ps : List String)
    (contact_col power_col : Player → ℚ) (lineup : List Entry)
    (h : find_best_lineup_backtracking df ps contact_col power_col = some lineup) :
    lineup.length = ps.length ∧
    List.Sorted byScoreDesc lineup ∧
    (∀ e ∈ lineup, pyRound2 e.score = e.score) ∧
    (∀ pos, (sentinelEntry pos).score = 0) := by
  rcases find_best_cases df ps contact_col power_col lineup h with
    ⟨L, hL, rfl, _⟩ | ⟨_, rfl⟩
  · refine ⟨?_, List.sorted_insertionSort _ _, ?_, fun _ => rfl⟩
    · rw [List.length_insertionSort, entriesOf_length, completions_length hL]
    · intro e he
      rw [List.mem_insertionSort] at he
      obtain ⟨a, bc, -, rfl⟩ :=
        (by simpa [entriesOf] using he : ∃ a b, (a, b) ∈ L ∧ lineupEntry a b = e)
      show pyRound2 (lineupEntry a bc).score = _
      simp only [lineupEntry]
      exact pyRound2_idem _
  · refine ⟨?_, List.sorted_insertionSort _ _, ?_, fun _ => rfl⟩
    · rw [List.length_insertionSort, List.length_map]
    · intro e he
      rw [List.mem_insertionSort] at he
      obtain ⟨pos, _, rfl⟩ := List.mem_map.1 he
      show pyRound2 (sentinelEntry pos).score = _
      simpa [sentinelEntry] using pyRound2_zero

/-- C8: shrinking some position's candidate list (in particular removing one
eligible candidate) can only lower or keep the optimal score the search
records: the best score over the restricted candidate map is at most the best
score over the original map. -/
theorem backtrack_restrict_mono (pc pcR : List (String × List Candidate))
    (ps : List String) (b bR : BestResult)
    (hsub : ∀ (pos : String) (c : Candidate),
      c ∈ (pcR.lookup pos).getD [] → c ∈ (pc.lookup pos).getD [])
    (hfull : backtrack_lineup pc ps [] [] ⟨⊥, []⟩ = some b)
    (hres : backtrack_lineup pcR ps [] [] ⟨⊥, []⟩ = some bR) :
    bR.score ≤ b.score := by
  obtain ⟨-, hu, -⟩ := backtrack_lineup_spec pc ps [] [] ⟨⊥, []⟩ b hfull
  obtain ⟨-, -, ha⟩ := backtrack_lineup_spec pcR ps [] [] ⟨⊥, []⟩ bR hres
  rcases ha with rfl | ⟨L, hL, -, hsc⟩
  · exact bot_le
  · have hLpc : L ∈ completions pc ps [] := by
      rw [mem_completions_iff] at hL ⊢
      obtain ⟨h1, h2, h3, h4⟩ := hL
      exact ⟨h1, fun x hx => hsub x.1 x.2 (h2 x hx), h3, h4⟩
    rw [hsc]
    exact hu L hLpc

/-! ### Concrete evaluations -/

theorem withBot_bot_lt_zero : (⊥ : WithBot ℚ) < 0 := by
  rw [← WithBot.coe_zero]
  exact WithBot.bot_lt_coe 0

theorem ratFloorTwoFifths : ⌊(2/5 : ℚ)⌋ = 0 := by
  rw [Int.floor_eq_iff]
  norm_num

theorem pyRound2_small : pyRound2 (1/250) = 0 := by
  norm_num [pyRound2, pyRoundHalfEven, ratFloorTwoFifths]

theorem find_best_w_eval :
    find_best_lineup_backtracking wRoster ["C"] Player.contactR Player.powerR =
      some [wEntryA] := by
  norm_num [find_best_lineup_backtracking, build_position_candidates, backtrack_lineup,
    backtrack_try, batting_score, lineupEntry, pyRound2, pyRoundHalfEven, totalScore,
    sentinelEntry, List.insertionSort, List.orderedInsert, byScoreDesc, List.lookup,
    wRoster, wPlayerA, wPlayerB, wEntryA, Int.floor_eq_iff]

theorem wAssign_valid :
    IsValidAssignment (build_position_candidates wRoster ["C"] Player.contactR Player.powerR)
      ["C"] wAssign := by
  norm_num [IsValidAssignment, wAssign, build_position_candidates, List.lookup,
    batting_score, assignmentNames, wRoster, wPlayerA, wPlayerB]

theorem decideStr1 : decide ("1B" = "C") = false := by simp

theorem decideStr2 : decide (("1B" : String) ∈ (["C"] : List String)) = false := by simp

theorem find_best_c1_eval :
    find_best_lineup_backtracking c1Roster ["C", "1B"] Player.contactR Player.powerR =
      some [sentinelEntry "C", sentinelEntry "1B"] := by
  simp [find_best_lineup_backtracking, build_position_candidates, backtrack_lineup,
    backtrack_try, batting_score, lineupEntry, totalScore,
    sentinelEntry, List.insertionSort, List.orderedInsert, byScoreDesc, List.lookup,
    c1Roster, c1PlayerA, c1PlayerB, beq_eq_decide, decideStr1, decideStr2]

theorem find_best_cx_eval :
    find_best_lineup_backtracking cxRoster ["C"] Player.contactR Player.powerR =
      some [cxEntry] := by
  norm_num [find_best_lineup_backtracking, build_position_candidates, backtrack_lineup,
    backtrack_try, batting_score, lineupEntry, totalScore, sentinelEntry,
    List.insertionSort, List.orderedInsert, byScoreDesc, List.lookup,
    cxRoster, cxPlayer, cxEntry, pyRound2_small, withBot_bot_lt_zero]

theorem completions_cx_eval :
    ((completions (build_position_candidates cxRoster ["C"] Player.contactR Player.powerR)
        ["C"] []).map rawTotalScore) = [1/250] := by
  norm_num [completions, build_position_candidates, List.lookup, batting_score,
    rawTotalScore, cxRoster, cxPlayer]

theorem backtrack_c8_full :
    backtrack_lineup c8Full ["C"] [] [] ⟨⊥, []⟩ =
      some ⟨((5/2 : ℚ) : WithBot ℚ), [wEntryA]⟩ := by
  norm_num [backtrack_lineup, backtrack_try, lineupEntry, pyRound2, pyRoundHalfEven,
    totalScore, List.lookup, c8Full, wPlayerA, wPlayerB, wEntryA, Int.floor_eq_iff]

theorem backtrack_c8_res :
    backtrack_lineup c8Restricted ["C"] [] [] ⟨⊥, []⟩ =
      some ⟨((17/10 : ℚ) : WithBot ℚ), [wEntryB]⟩ := by
  norm_num [backtrack_lineup, backtrack_try, lineupEntry, pyRound2, pyRoundHalfEven,
    totalScore, List.lookup, c8Restricted, wPlayerA, wPlayerB, wEntryB, Int.floor_eq_iff]

theorem c8_sub : ∀ (pos : String) (c : Candidate),
    c ∈ (c8Restricted.lookup pos).getD [] → c ∈ (c8Full.lookup pos).getD [] := by
  intro pos c hc
  by_cases h : pos = "C"
  · subst h
    simp only [c8Restricted, List.lookup] at hc
    norm_num at hc
    simp only [c8Full, List.lookup]
    norm_num [hc]
  · have hbeq : (pos == "C") = false := by
      simp [h]
    simp [c8Restricted, List.lookup, hbeq] at hc

/-! ### Remaining claim theorems: C1, C2 counterexample, C4 -/

/-- C1 counterexample: on the spec's own example (roster A with score 10 and
B with score 7, both catcher-only; positions C and 1B with no eligible first
baseman) the code does NOT return `[(C, A, 10), (1B, N/A, 0)]` — the fillable
catcher slot does not keep a real player. -/
theorem sentinel_padding_counterexample :
    find_best_lineup_backtracking c1Roster ["C", "1B"] Player.contactR Player.powerR ≠
      some [{ position := "C", player := "A", bats := "R", average := 0, hr := 0, rbi := 0,
              speed := 100, atBats := 0, score := 10 }, sentinelEntry "1B"] := by
  rw [find_best_c1_eval]
  intro h
  simp [sentinelEntry] at h

/-- C1 (amended): when some required position cannot receive any candidate,
the search records no complete assignment at all and every slot — the
fillable catcher included — is filled with the sentinel entry: on the
example, the returned lineup is [(C, N/A, 0), (1B, N/A, 0)]. -/
theorem sentinel_padding_amended :
    find_best_lineup_backtracking c1Roster ["C", "1B"] Player.contactR Player.powerR =
      some [sentinelEntry "C", sentinelEntry "1B"] :=
  find_best_c1_eval

/-- C2 counterexample: for the one-player roster whose raw batting score is
1/250, the unique complete distinct assignment has raw score total 1/250, yet
the returned lineup's total score is 0 (the per-entry rounding to two
decimals is applied before totalling), so the returned total does not equal
the maximum of the raw candidate-score sums. -/
theorem total_score_raw_counterexample :
    find_best_lineup_backtracking cxRoster ["C"] Player.contactR Player.powerR =
      some [cxEntry] ∧
    ((completions (build_position_candidates cxRoster ["C"] Player.contactR Player.powerR)
        ["C"] []).map rawTotalScore) = [1/250] ∧
    totalScore [cxEntry] = 0 ∧ (0 : ℚ) ≠ 1/250 := by
  refine ⟨find_best_cx_eval, completions_cx_eval, ?_, by norm_num⟩
  norm_num [totalScore, cxEntry]

/-- C4 counterexample: with a roster row whose only raw position label is the
lowercase "c", the spec's case-normalized eligibility admits the player for
position "C", but the code's candidate list for "C" is empty — eligibility in
the code is case-sensitive. -/
theorem eligibility_case_counterexample :
    ¬ ((∃ cand ∈ ((build_position_candidates (load_and_prepare_data [c4Raw]) ["C"]
          Player.contactR Player.powerR).lookup "C").getD [],
        cand.p = preparePlayer c4Raw) ↔ specEligible "C" c4Raw) := by
  decide

/-- C4 (amended): a player appears in the candidate list that
`build_position_candidates` produces for a required position P if and only if
P appears verbatim — whitespace-stripped labels, but no case folding — among
that player's position labels (blank labels becoming the empty string). -/
theorem eligibility_exact_match (df : List RawPlayer) (positions : List String)
    (contact_col power_col : Player → ℚ) (P : String) (r : RawPlayer)
    (hP : P ∈ positions) (hr : r ∈ df) :
    (∃ cand ∈ ((build_position_candidates (load_and_prepare_data df) positions
        contact_col power_col).lookup P).getD [],
      cand.p = preparePlayer r) ↔
    P ∈ (rawPositionLabels r).map fun o => pyStrip (o.getD "") := by
  rw [lookup_build_eq (load_and_prepare_data df) contact_col power_col positions P hP]
  constructor
  · rintro ⟨cand, hmem, hp⟩
    simp only [Option.getD_some] at hmem
    obtain ⟨q, hq, rfl⟩ := List.mem_map.1 hmem
    have hqf := (List.mem_filter.1 hq).2
    rw [decide_eq_true_eq] at hqf
    have hq2 : q = preparePlayer r := hp
    rw [hq2] at hqf
    exact hqf
  · intro hmem
    refine ⟨⟨preparePlayer r, batting_score (preparePlayer r) contact_col power_col⟩, ?_, rfl⟩
    simp only [Option.getD_some]
    refine List.mem_map.2 ⟨preparePlayer r, ?_, rfl⟩
    refine List.mem_filter.2 ⟨?_, ?_⟩
    · exact List.mem_map.2 ⟨r, hr, rfl⟩
    · rw [decide_eq_true_eq]
      exact hmem

/-! ### Witnesses -/

/-- Witness for C2's theorem at the two-player catcher roster. -/
theorem find_best_total_optimal_witness :
    (∀ A, IsValidAssignment (build_position_candidates wRoster ["C"]
        Player.contactR Player.powerR) ["C"] A →
      totalScore (entriesOf A) ≤ totalScore [wEntryA]) ∧
    (∃ A, IsValidAssignment (build_position_candidates wRoster ["C"]
        Player.contactR Player.powerR) ["C"] A ∧
      totalScore [wEntryA] = totalScore (entriesOf A)) :=
  find_best_total_optimal wRoster ["C"] Player.contactR Player.powerR [wEntryA]
    find_best_w_eval ⟨wAssign, wAssign_valid⟩

/-- Witness for C5's theorem at the two-player catcher roster. -/
theorem find_best_distinct_witness :
    ([wEntryA] : List Entry).Pairwise
      (fun a b => a.player = b.player → a.player = "N/A" ∧ b.player = "N/A") :=
  find_best_distinct wRoster ["C"] Player.contactR Player.powerR [wEntryA] find_best_w_eval

/-- Witness for C6's theorem at the two-player catcher roster. -/
theorem find_best_shape_witness :
    ([wEntryA] : List Entry).length = (["C"] : List String).length ∧
    List.Sorted byScoreDesc [wEntryA] ∧
    (∀ e ∈ ([wEntryA] : List Entry), pyRound2 e.score = e.score) ∧
    (∀ pos, (sentinelEntry pos).score = 0) :=
  find_best_shape wRoster ["C"] Player.contactR Player.powerR [wEntryA] find_best_w_eval

/-- Witness for C10's theorem at the two-player catcher roster. -/
theorem find_best_all_or_nothing_witness :
    (∃ A, IsValidAssignment (build_position_candidates wRoster ["C"]
        Player.contactR Player.powerR) ["C"] A ∧
        ([wEntryA] : List Entry) = List.insertionSort byScoreDesc (entriesOf A) ∧
        ∀ e ∈ ([wEntryA] : List Entry), ∃ x ∈ A, e = lineupEntry x.1 x.2) ∨
    ((¬ ∃ A, IsValidAssignment (build_position_candidates wRoster ["C"]
        Player.contactR Player.powerR) ["C"] A) ∧
        ([wEntryA] : List Entry) = List.insertionSort byScoreDesc
          ((["C"] : List String).map sentinelEntry) ∧
        ∀ e ∈ ([wEntryA] : List Entry), ∃ pos ∈ (["C"] : List String), e = sentinelEntry pos) :=
  find_best_all_or_nothing wRoster ["C"] Player.contactR Player.powerR [wEntryA]
    find_best_w_eval

/-- Witness for C8's theorem: removing the score-5/2 catcher candidate drops
the recorded best score from 5/2 to 17/10. -/
theorem backtrack_restrict_mono_witness :
    backtrack_lineup c8Full ["C"] [] [] ⟨⊥, []⟩ =
      some ⟨((5/2 : ℚ) : WithBot ℚ), [wEntryA]⟩ ∧
    backtrack_lineup c8Restricted ["C"] [] [] ⟨⊥, []⟩ =
      some ⟨((17/10 : ℚ) : WithBot ℚ), [wEntryB]⟩ ∧
    (BestResult.mk ((17/10 : ℚ) : WithBot ℚ) [wEntryB]).score ≤
      (BestResult.mk ((5/2 : ℚ) : WithBot ℚ) [wEntryA]).score :=
  ⟨backtrack_c8_full, backtrack_c8_res,
    backtrack_restrict_mono c8Full c8Restricted ["C"] _ _ c8_sub
      backtrack_c8_full backtrack_c8_res⟩

/-- Witness for C4's amended theorem: a label " C " with surrounding
whitespace is stripped at load time and matches position "C" verbatim. -/
theorem eligibility_exact_match_witness :
    (∃ cand ∈ ((build_position_candidates (load_and_prepare_data [c4RawW]) ["C"]
        Player.contactR Player.powerR).lookup "C").getD [],
      cand.p = preparePlayer c4RawW) ↔
    "C" ∈ (rawPositionLabels c4RawW).map fun o => pyStrip (o.getD "") :=
  eligibility_exact_match [c4RawW] ["C"] Player.contactR Player.powerR "C" c4RawW
    (List.mem_singleton.mpr rfl) (List.mem_singleton.mpr rfl)

end MLB2K25
